import Mathlib

/-!
Verification of the LogViewer single-page application.

This file is a shallow embedding, in Lean 4, of the parts of the LogViewer
repository that the specification makes claims about:

* the log-viewer page (`fetchLogs`, `viewWithLLM`, URL query parameter
  encode/decode) from `app/page.tsx`;
* the log table (sorting, column/global filters, pagination) from
  `components/log-table.tsx`;
* the settings page (`addService`, `removeService`, endpoint editing,
  `resetToDefaults`, `getTimezoneLabel`) from `app/settings/page.tsx`.

React `useState` / `useLocalStorage` cells are gathered into explicit state
records, and each event handler becomes a pure state-transition function.
The outcome of an external asynchronous call (log fetch, OpenAI completion)
is passed in as an explicit parameter, so a single invocation of a handler
is the function applied to the outcome the environment produced.

The table row-model algorithms (sorting, filtering, pagination) live in the
third-party `@tanstack/react-table` package, whose code is not part of the
repository; those are modelled from the specification's own description of
their semantics, and each such definition says so in its doc comment.
-/

namespace LogViewer

/-! ## Data model -/

/-- A configured log source: `{ name: string (unique key), endpoint: string }`,
from the `Service` shape used by both pages. -/
structure Service where
  name : String
  endpoint : String
deriving Repr, DecidableEq

/-- The `DEFAULT_SERVICES` constant, identical in `app/page.tsx` and
`app/settings/page.tsx`. -/
def DEFAULT_SERVICES : List Service :=
  [ ⟨"API Server", "https://api.example.com/logs"⟩,
    ⟨"Web Server", "https://web.example.com/logs"⟩,
    ⟨"Database", "https://db.example.com/logs"⟩ ]

/-- The `DEFAULT_PAGE_SIZE` constant from `app/settings/page.tsx`. -/
def DEFAULT_PAGE_SIZE : Nat := 10

/-- One structured log record (the `LogEntry` interface in
`components/log-table.tsx`).  All displayed fields are strings in the demo
data; a field that is absent on a record is modelled as `""`. -/
structure LogEntry where
  id : String
  timestamp : String
  level : String
  message : String
  service : String
  user : String
  component : String
  action : String
  statusCode : String
  requestId : String
deriving Repr, DecidableEq, Inhabited

/-! ## Settings page: service CRUD and reset (`app/settings/page.tsx`) -/

/-- `addService` from the settings page: rejects a missing name or endpoint
(`!newServiceName || !newServiceEndpoint`, i.e. the empty string), rejects a
name that already exists (`services.some((s) => s.name === newServiceName)`),
and otherwise appends the new service. -/
def addService (services : List Service) (name endpoint : String) : List Service :=
  if name = "" ∨ endpoint = "" then services
  else if services.any (fun s => s.name = name) then services
  else services ++ [⟨name, endpoint⟩]

/-- `removeService` from the settings page:
`services.filter((s) => s.name !== name)`. -/
def removeService (services : List Service) (name : String) : List Service :=
  services.filter (fun s => s.name ≠ name)

/-- The endpoint `Input`'s `onChange` handler on the settings page:
`services.map((s) => s.name === service.name ? { ...s, endpoint: value } : s)`. -/
def editEndpoint (services : List Service) (name endpoint : String) : List Service :=
  services.map (fun s => if s.name = name then { s with endpoint := endpoint } else s)

/-- All service names in the list are pairwise distinct. -/
def distinctNames (services : List Service) : Prop :=
  services.Pairwise (fun a b => a.name ≠ b.name)

instance (services : List Service) : Decidable (distinctNames services) := by
  unfold distinctNames
  exact List.instDecidablePairwise services

/-- The settings owned by the settings page, one field per `useLocalStorage`
cell (`app/settings/page.tsx`). -/
structure SettingsState where
  services : List Service
  primaryTimezone : String
  pageSize : Nat
  showLineNumbers : Bool
  dateFormat : String
  timeFormat : String
  openAIApiKey : String
deriving Repr, DecidableEq

/-- `resetToDefaults` from the settings page.  `detectedTimezone` stands for
`Intl.DateTimeFormat().resolvedOptions().timeZone`, the value the code passes
to `setPrimaryTimezone`.  Note the function body never touches
`openAIApiKey`. -/
def resetToDefaults (s : SettingsState) (detectedTimezone : String) : SettingsState :=
  { s with
    services := DEFAULT_SERVICES
    primaryTimezone := detectedTimezone
    pageSize := DEFAULT_PAGE_SIZE
    showLineNumbers := true
    dateFormat := "yyyy-MM-dd"
    timeFormat := "HH:mm:ss" }

/-! ## Timezone label lookup (`app/settings/page.tsx`) -/

/-- One entry of the static `rawTimeZones` table from `@vvo/tzdb`; only the
two fields the settings page reads.  In the package both fields are plain
(non-optional) strings. -/
structure RawTimeZone where
  name : String
  alternativeName : String
deriving Repr, DecidableEq

/-- The lookup of `TZ_RECORD`, the JavaScript `Map` built by
`new Map(rawTimeZones.map((z) => [z.name, z]))`: on duplicate names the last
entry wins, which the fold reproduces.  The static table is a parameter
because the tzdb data is not part of the repository. -/
def tzRecordGet (table : List RawTimeZone) (tz : String) : Option RawTimeZone :=
  table.foldl (fun acc z => if z.name = tz then some z else acc) none

/-- `tz.replace(/_/g, " ")`: every underscore becomes a space. -/
def underscoresToSpaces (tz : String) : String :=
  ⟨tz.data.map (fun c => if c = '_' then ' ' else c)⟩

/-- `getTimezoneLabel` from the settings page:
`TZ_RECORD.get(tz)?.alternativeName ?? tz.replace(/_/g, " ")`. -/
def getTimezoneLabel (table : List RawTimeZone) (tz : String) : String :=
  match tzRecordGet table tz with
  | some z => z.alternativeName
  | none => underscoresToSpaces tz

/-! ## Claim C9: service-name uniqueness is an invariant -/

theorem addService_distinct {l : List Service} (n e : String)
    (h : distinctNames l) : distinctNames (addService l n e) := by
  unfold addService
  split
  · exact h
  · split
    · exact h
    · next hne hnotin =>
      unfold distinctNames at h ⊢
      rw [List.pairwise_append]
      refine ⟨h, List.pairwise_singleton _ _, ?_⟩
      intro a ha b hb
      simp only [List.mem_singleton] at hb
      subst hb
      simp only [List.any_eq_true, decide_eq_true_eq, not_exists, not_and] at hnotin
      exact fun hc => (hnotin a ha) hc

theorem removeService_distinct {l : List Service} (n : String)
    (h : distinctNames l) : distinctNames (removeService l n) :=
  List.Pairwise.sublist (List.filter_sublist l) h

theorem editEndpoint_name_eq (s : Service) (n e : String) :
    (if s.name = n then { s with endpoint := e } else s).name = s.name := by
  split <;> rfl

theorem editEndpoint_distinct {l : List Service} (n e : String)
    (h : distinctNames l) : distinctNames (editEndpoint l n e) := by
  unfold editEndpoint distinctNames
  rw [List.pairwise_map]
  refine h.imp_of_mem ?_
  intro a b _ _ hab
  rw [editEndpoint_name_eq, editEndpoint_name_eq]
  exact hab

/-- Claim C9: starting from pairwise-distinct service names (including the
three-service default), `addService` (which rejects an existing name),
`removeService`, and endpoint editing each preserve pairwise-distinct
service names. -/
theorem services_unique_invariant :
    distinctNames DEFAULT_SERVICES ∧
    (∀ (l : List Service) (n e : String), distinctNames l → distinctNames (addService l n e)) ∧
    (∀ (l : List Service) (n : String), distinctNames l → distinctNames (removeService l n)) ∧
    (∀ (l : List Service) (n e : String), distinctNames l → distinctNames (editEndpoint l n e)) := by
  refine ⟨by decide, ?_, ?_, ?_⟩
  · intro l n e h; exact addService_distinct n e h
  · intro l n h; exact removeService_distinct n h
  · intro l n e h; exact editEndpoint_distinct n e h

/-- Witness for C9: the invariant theorem applied at concrete inputs — adding
a fresh service to the default list, removing one, and editing an endpoint
all keep names pairwise distinct. -/
theorem services_unique_invariant_witness :
    distinctNames (addService DEFAULT_SERVICES "Auth Service" "https://auth.example.com/logs") ∧
    distinctNames (removeService DEFAULT_SERVICES "Database") ∧
    distinctNames (editEndpoint DEFAULT_SERVICES "Web Server" "https://web2.example.com/logs") :=
  ⟨services_unique_invariant.2.1 DEFAULT_SERVICES _ _ (by decide),
   services_unique_invariant.2.2.1 DEFAULT_SERVICES _ (by decide),
   services_unique_invariant.2.2.2 DEFAULT_SERVICES _ _ (by decide)⟩

/-! ## Claim C10: reset-to-defaults leaves the API key alone -/

/-- Claim C10: `resetToDefaults` restores services, primary timezone, page
size, show-line-numbers, date format and time format to their defaults, and
leaves the stored OpenAI API key unchanged. -/
theorem resetToDefaults_spec (s : SettingsState) (detectedTimezone : String) :
    (resetToDefaults s detectedTimezone).openAIApiKey = s.openAIApiKey ∧
    (resetToDefaults s detectedTimezone).services = DEFAULT_SERVICES ∧
    (resetToDefaults s detectedTimezone).primaryTimezone = detectedTimezone ∧
    (resetToDefaults s detectedTimezone).pageSize = DEFAULT_PAGE_SIZE ∧
    (resetToDefaults s detectedTimezone).showLineNumbers = true ∧
    (resetToDefaults s detectedTimezone).dateFormat = "yyyy-MM-dd" ∧
    (resetToDefaults s detectedTimezone).timeFormat = "HH:mm:ss" :=
  ⟨rfl, rfl, rfl, rfl, rfl, rfl, rfl⟩

/-! ## Claim C7: the timezone label function -/

theorem tzRecordGet_none (tz : String) :
    ∀ (l : List RawTimeZone) (acc : Option RawTimeZone),
      (∀ z ∈ l, z.name ≠ tz) →
      l.foldl (fun a z => if z.name = tz then some z else a) acc = acc := by
  intro l
  induction l with
  | nil => intro acc _; rfl
  | cons z t ih =>
    intro acc hnone
    have hz : z.name ≠ tz := hnone z (List.mem_cons_self z t)
    simp only [List.foldl_cons, if_neg hz]
    exact ih acc fun w hw => hnone w (List.mem_cons_of_mem z hw)

theorem tzRecordGet_mem (tz : String) :
    ∀ (l : List RawTimeZone) (acc : Option RawTimeZone),
      (∃ z ∈ l, z.name = tz) →
      ∃ z, z ∈ l ∧ z.name = tz ∧
        l.foldl (fun a w => if w.name = tz then some w else a) acc = some z := by
  intro l
  induction l with
  | nil => intro acc h; simp at h
  | cons z t ih =>
    intro acc hex
    by_cases ht : ∃ w ∈ t, w.name = tz
    · obtain ⟨w, hw, hwtz, heq⟩ := ih (if z.name = tz then some z else acc) ht
      exact ⟨w, List.mem_cons_of_mem z hw, hwtz, by simpa using heq⟩
    · have hz : z.name = tz := by
        obtain ⟨w, hw, hwtz⟩ := hex
        rcases List.mem_cons.mp hw with rfl | hwmem
        · exact hwtz
        · exact absurd ⟨w, hwmem, hwtz⟩ ht
      refine ⟨z, List.mem_cons_self z t, hz, ?_⟩
      simp only [List.foldl_cons, if_pos hz]
      exact tzRecordGet_none tz t (some z) fun w hw hwtz => ht ⟨w, hw, hwtz⟩

/-- Claim C7: for every timezone identifier, if it is a key of the
tzdb-derived lookup map then `getTimezoneLabel` returns that zone's
alternative name, and otherwise it returns the identifier with every
underscore replaced by a space; the function is total, so it never fails. -/
theorem getTimezoneLabel_spec (table : List RawTimeZone) (tz : String) :
    ((∃ z ∈ table, z.name = tz) →
      ∃ z, z ∈ table ∧ z.name = tz ∧
        getTimezoneLabel table tz = z.alternativeName) ∧
    ((∀ z ∈ table, z.name ≠ tz) →
      getTimezoneLabel table tz = underscoresToSpaces tz) := by
  constructor
  · intro hex
    obtain ⟨z, hmem, hname, heq⟩ := tzRecordGet_mem tz table none hex
    exact ⟨z, hmem, hname, by simp [getTimezoneLabel, tzRecordGet, heq]⟩
  · intro hnone
    simp [getTimezoneLabel, tzRecordGet, tzRecordGet_none tz table none hnone]

/-- Witness for C7 at a concrete two-entry table: a present key returns the
stored alternative name, an absent key falls back to the identifier with
underscores replaced by spaces. -/
theorem getTimezoneLabel_spec_witness :
    getTimezoneLabel
      [⟨"Asia/Karachi", "Pakistan Standard Time"⟩,
       ⟨"Europe/London", "Greenwich Mean Time"⟩] "Asia/Karachi" =
      "Pakistan Standard Time" ∧
    getTimezoneLabel
      [⟨"Asia/Karachi", "Pakistan Standard Time"⟩,
       ⟨"Europe/London", "Greenwich Mean Time"⟩] "America/New_York" =
      "America/New York" := by
  constructor
  · obtain ⟨z, hmem, hname, heq⟩ :=
      (getTimezoneLabel_spec
        [⟨"Asia/Karachi", "Pakistan Standard Time"⟩,
         ⟨"Europe/London", "Greenwich Mean Time"⟩] "Asia/Karachi").1
        ⟨⟨"Asia/Karachi", "Pakistan Standard Time"⟩, by decide, rfl⟩
    rw [heq]
    rcases List.mem_cons.mp hmem with rfl | hmem
    · rfl
    · rcases List.mem_cons.mp hmem with rfl | hmem
      · exact absurd hname (by decide)
      · simp at hmem
  · have h :=
      (getTimezoneLabel_spec
        [⟨"Asia/Karachi", "Pakistan Standard Time"⟩,
         ⟨"Europe/London", "Greenwich Mean Time"⟩] "America/New_York").2
        (by decide)
    rw [h]
    decide

/-! ## Claim C4: URL query-parameter round trip (`app/page.tsx`) -/

/-- An instant in time, counted in minutes since the Unix epoch. -/
abbrev Instant := Int

def minutesPerDay : Int := 1440

/-- The local calendar day (as an epoch-day number) of an instant, in an
environment whose UTC offset is `off` minutes (positive = east of UTC). -/
def localEpochDay (off : Int) (t : Instant) : Int :=
  (t + off).fdiv minutesPerDay

/-- Models the encode effect `params.set("date", format(date, "yyyy-MM-dd"))`:
date-fns `format` renders the date in local time, so the parameter carries the
local calendar day.  A `yyyy-MM-dd` string is identified with its epoch-day
number (the two are in bijection). -/
def encodeDateParam (off : Int) (t : Instant) : Int :=
  localEpochDay off t

/-- Models `new Date(dateParam)` for a `yyyy-MM-dd` value: ECMAScript parses a
date-only ISO string as midnight UTC of that calendar day. -/
def parseDateParam (day : Int) : Instant :=
  minutesPerDay * day

/-- The calendar day the page shows after reload: the local calendar day of
the instant produced by `new Date(dateParam)`. -/
def decodeDateParam (off : Int) (day : Int) : Int :=
  localEpochDay off (parseDateParam day)

/-- Models `params.set("service", selectedService)`: the parameter value is
the service name (`URLSearchParams` round-trips the string unchanged). -/
def encodeServiceParam (name : String) : String := name

/-- Models `searchParams.get("service") || "API Server"`: an absent parameter
(`null`) and the empty string are both falsy and fall back to the default. -/
def decodeServiceParam : Option String → String
  | none => "API Server"
  | some v => if v = "" then "API Server" else v

/-- Counterexample to C4 as stated: in an environment west of UTC (offset
-300 minutes, e.g. UTC-5), encoding the selected date and decoding it on
reload lands on the PREVIOUS local calendar day, because `format` renders the
day in local time while `new Date("yyyy-MM-dd")` parses it as UTC midnight.
Concretely, for the instant 720 minutes after the epoch (local day 0) the
decoded date has local day -1. -/
theorem url_roundtrip_counterexample :
    (decodeDateParam (-300) (encodeDateParam (-300) 720) ≠ localEpochDay (-300) 720) ∧
    decodeDateParam (-300) (encodeDateParam (-300) 720) = localEpochDay (-300) 720 - 1 := by
  constructor
  · decide
  · decide

/-- Claim C4 (amended): the round trip reproduces the same selected calendar
day whenever the environment's UTC offset is nonnegative (at or east of UTC);
west of UTC the decoded date falls on the previous local day.  The service
name round-trips for every non-empty name. -/
theorem url_roundtrip_spec (off : Int) (t : Instant) (name : String)
    (hoff0 : 0 ≤ off) (hoff1 : off < minutesPerDay) (hname : name ≠ "") :
    decodeDateParam off (encodeDateParam off t) = localEpochDay off t ∧
    decodeServiceParam (some (encodeServiceParam name)) = name := by
  have hb : (0 : Int) ≤ minutesPerDay := by decide
  have hb0 : (minutesPerDay : Int) ≠ 0 := by decide
  constructor
  · unfold decodeDateParam parseDateParam encodeDateParam
    generalize localEpochDay off t = d
    unfold localEpochDay
    rw [Int.fdiv_eq_ediv _ hb, add_comm (minutesPerDay * d) off,
      Int.add_mul_ediv_left off d hb0,
      Int.ediv_eq_zero_of_lt hoff0 hoff1, zero_add]
  · simp [decodeServiceParam, encodeServiceParam, hname]

/-- Witness for C4 (amended) in the UTC+5 environment, at a concrete instant
and the default service name. -/
theorem url_roundtrip_spec_witness :
    ((0 : Int) ≤ 300 ∧ (300 : Int) < minutesPerDay ∧ ("API Server" : String) ≠ "") ∧
    decodeDateParam 300 (encodeDateParam 300 100) = localEpochDay 300 100 ∧
    decodeServiceParam (some (encodeServiceParam "API Server")) = "API Server" := by
  have h := url_roundtrip_spec 300 100 "API Server" (by decide) (by decide) (by decide)
  exact ⟨⟨by decide, by decide, by decide⟩, h.1, h.2⟩

/-! ## Log-viewer page state machine (`app/page.tsx`) -/

/-- A toast notification as produced by `useToast`. -/
structure Toast where
  title : String
  description : String
  variant : String
deriving Repr, DecidableEq

/-- The toast raised by `fetchLogs`'s catch block. -/
def fetchErrorToast : Toast :=
  ⟨"Error", "Failed to fetch logs. Please try again.", "destructive"⟩

/-- The toast raised by `viewWithLLM` when no API key is configured. -/
def missingKeyToast : Toast :=
  ⟨"Missing API Key", "Add your OpenAI API key in Settings > LLM View", "destructive"⟩

/-- The toast raised by `viewWithLLM`'s catch block. -/
def llmErrorToast : Toast :=
  ⟨"Error", "Failed to fetch explanation", "destructive"⟩

/-- The `useState` cells of the `LogViewer` page component, plus two
observables of its environment: the toasts raised so far and the number of
network requests issued to the OpenAI endpoint. -/
structure ViewerState where
  logs : List LogEntry
  loading : Bool
  error : Option String
  selectedLog : Option LogEntry
  llmExplanation : String
  llmLoading : Bool
  toasts : List Toast
  llmRequests : Nat
deriving Repr, DecidableEq

/-- The page's initial state (`useState` initializers): no logs, loading,
no error, nothing selected, empty explanation. -/
def initialViewerState : ViewerState :=
  ⟨[], true, none, none, "", false, [], 0⟩

/-- How one invocation of `fetchLogs` completes: the promise either resolves,
or rejects with an `Error` carrying a message (`some msg`) or a non-`Error`
value (`none`). -/
inductive FetchOutcome where
  | success
  | failure (message : Option String)

/-- The single fabricated demonstration record `fetchLogs` builds on success.
`timestampIso` stands for `timestampDate.toISOString()` (the selected date at
10:30 local time); its value is irrelevant to every claim. -/
def mockLogs (timestampIso selectedService : String) : List LogEntry :=
  [ ⟨"log-1", timestampIso, "INFO",
     "Example log entry - This is a demo log message",
     selectedService, "demo_user", "demo_component", "demo_action",
     "200", "req-demo-001"⟩ ]

/-- `fetchLogs` from `app/page.tsx` (identical in both versions of the page):
sets `loading`, clears `error`, then on success stores the mock logs and on
failure stores the error message and raises a toast; `finally` clears
`loading`.  Note the catch block never writes `logs`. -/
def fetchLogs (s : ViewerState) (timestampIso selectedService : String)
    (outcome : FetchOutcome) : ViewerState :=
  let s1 := { s with loading := true, error := none }
  match outcome with
  | .success =>
      { s1 with logs := mockLogs timestampIso selectedService, loading := false }
  | .failure msg =>
      { s1 with
        error := some (msg.getD "Failed to fetch logs")
        toasts := s1.toasts ++ [fetchErrorToast]
        loading := false }

/-- What the page's JSX renders below the toolbar: the error panel when
`error` is set, else the loading skeleton, else the log table. -/
inductive RenderedView where
  | errorPanel (message : String)
  | skeleton
  | table (rows : List LogEntry)
deriving Repr, DecidableEq

/-- The page's `error ? panel : loading ? skeleton : table` ternary. -/
def renderView (s : ViewerState) : RenderedView :=
  match s.error with
  | some m => .errorPanel m
  | none => if s.loading then .skeleton else .table s.logs

/-! ## AI explanation client (`viewWithLLM` in `app/page.tsx`) -/

/-- How the OpenAI call completes once it is issued: either `fetch` /
`res.json()` rejects (transport or JSON-parse error), or a parsed body is
obtained and `data.choices?.[0]?.message?.content` is `some` string or
absent (`none`, e.g. an HTTP error body with no `choices`). -/
inductive LlmOutcome where
  | response (content : Option String)
  | fetchError

/-- A character JavaScript's `String.prototype.trim` strips (the common
ASCII white-space and line-terminator characters). -/
def jsWhitespaceChar (c : Char) : Bool :=
  c = ' ' ∨ c = '\t' ∨ c = '\n' ∨ c = '\r' ∨ c = '\x0b' ∨ c = '\x0c'

/-- JavaScript's `String.prototype.trim`: drop white space from both ends. -/
def jsTrim (s : String) : String :=
  ⟨((s.data.dropWhile jsWhitespaceChar).reverse.dropWhile jsWhitespaceChar).reverse⟩

/-- `data.choices?.[0]?.message?.content?.trim() || "No explanation"`: the
optional-chained content, trimmed, with the placeholder for an absent field
or a blank string (both are falsy). -/
def extractExplanation (content : Option String) : String :=
  match content with
  | some c => if jsTrim c = "" then "No explanation" else jsTrim c
  | none => "No explanation"

/-- `viewWithLLM` from `app/page.tsx`: records the selected entry; with no
API key it raises the missing-key toast and returns; otherwise it clears the
explanation, issues the request, and either stores the extracted completion
or (in the catch block) raises the generic failure toast; `finally` clears
`llmLoading`. -/
def viewWithLLM (s : ViewerState) (entry : LogEntry) (openAIApiKey : String)
    (outcome : LlmOutcome) : ViewerState :=
  let s1 := { s with selectedLog := some entry }
  if openAIApiKey = "" then
    { s1 with toasts := s1.toasts ++ [missingKeyToast] }
  else
    let s2 := { s1 with
                llmLoading := true
                llmExplanation := ""
                llmRequests := s1.llmRequests + 1 }
    match outcome with
    | .response content =>
        { s2 with llmExplanation := extractExplanation content, llmLoading := false }
    | .fetchError =>
        { s2 with toasts := s2.toasts ++ [llmErrorToast], llmLoading := false }

/-! ## Claim C1: behaviour of `fetchLogs` on transport failure -/

/-- Counterexample to C1 as stated: a failing fetch from a state that already
displays one row leaves the logs list non-empty (and in fact untouched) —
the catch block of `fetchLogs` never clears `logs`. -/
theorem fetch_failure_keeps_rows_counterexample :
    ((fetchLogs
        { initialViewerState with
          logs := mockLogs "2024-01-15T05:30:00.000Z" "API Server", loading := false }
        "2024-01-16T05:30:00.000Z" "API Server" (.failure none)).logs ≠ []) ∧
    ((fetchLogs
        { initialViewerState with
          logs := mockLogs "2024-01-15T05:30:00.000Z" "API Server", loading := false }
        "2024-01-16T05:30:00.000Z" "API Server" (.failure none)).logs =
      mockLogs "2024-01-15T05:30:00.000Z" "API Server") := by
  constructor
  · decide
  · rfl

/-- Claim C1 (amended): on a failing fetch, `fetchLogs` sets the error state
to the rejection's message (or the fixed fallback text), raises the failure
toast, and the page then renders the error panel instead of the table — so no
rows are displayed — but the `logs` state keeps its previous value rather
than becoming empty. -/
theorem fetch_failure_spec (s : ViewerState) (timestampIso selectedService : String)
    (msg : Option String) :
    (fetchLogs s timestampIso selectedService (.failure msg)).error =
      some (msg.getD "Failed to fetch logs") ∧
    renderView (fetchLogs s timestampIso selectedService (.failure msg)) =
      .errorPanel (msg.getD "Failed to fetch logs") ∧
    (fetchLogs s timestampIso selectedService (.failure msg)).logs = s.logs ∧
    (fetchLogs s timestampIso selectedService (.failure msg)).toasts =
      s.toasts ++ [fetchErrorToast] ∧
    (fetchLogs s timestampIso selectedService (.failure msg)).loading = false := by
  refine ⟨rfl, rfl, rfl, rfl, rfl⟩

/-! ## Claim C2: AI explanation with an empty credential -/

/-- Claim C2: with an empty (unconfigured) credential, `viewWithLLM` issues
no network request, raises the missing-credential toast, and leaves the
explanation text and the loading flag unchanged (whatever outcome the network
could have produced). -/
theorem explain_missing_credential (s : ViewerState) (entry : LogEntry)
    (outcome : LlmOutcome) :
    (viewWithLLM s entry "" outcome).llmRequests = s.llmRequests ∧
    (viewWithLLM s entry "" outcome).llmExplanation = s.llmExplanation ∧
    (viewWithLLM s entry "" outcome).llmLoading = s.llmLoading ∧
    (viewWithLLM s entry "" outcome).toasts = s.toasts ++ [missingKeyToast] ∧
    (viewWithLLM s entry "" outcome).selectedLog = some entry := by
  refine ⟨rfl, rfl, rfl, rfl, rfl⟩

/-! ## Claim C3: AI explanation with a configured credential -/

/-- Counterexample to C3 as stated: a successful completion is not displayed
verbatim — `viewWithLLM` trims it, so the completion text
`" The log is fine. "` is displayed as `"The log is fine."`. -/
theorem explain_not_verbatim_counterexample :
    ((viewWithLLM initialViewerState
        (mockLogs "2024-01-15T05:30:00.000Z" "API Server").headI "sk-test"
        (.response (some " The log is fine. "))).llmExplanation ≠
      " The log is fine. ") ∧
    ((viewWithLLM initialViewerState
        (mockLogs "2024-01-15T05:30:00.000Z" "API Server").headI "sk-test"
        (.response (some " The log is fine. "))).llmExplanation =
      "The log is fine.") := by
  constructor
  · decide
  · rfl

/-- Claim C3 (amended): with a non-empty credential, if the external call
yields a completion the displayed text is that completion trimmed of
surrounding white space (with the placeholder `"No explanation"` when the
`choices` content is absent or blank); if the call throws in transport or
JSON parsing, the generic failure toast is raised and the explanation string
stays `""`. -/
theorem explain_nonempty_key_spec (s : ViewerState) (entry : LogEntry)
    (key : String) (hk : key ≠ "") :
    (∀ c : String,
      (viewWithLLM s entry key (.response (some c))).llmExplanation =
        (if jsTrim c = "" then "No explanation" else jsTrim c) ∧
      (viewWithLLM s entry key (.response (some c))).toasts = s.toasts) ∧
    (viewWithLLM s entry key (.response none)).llmExplanation = "No explanation" ∧
    ((viewWithLLM s entry key .fetchError).llmExplanation = "" ∧
     (viewWithLLM s entry key .fetchError).toasts = s.toasts ++ [llmErrorToast] ∧
     (viewWithLLM s entry key .fetchError).llmLoading = false) := by
  refine ⟨fun c => ⟨?_, ?_⟩, ?_, ?_, ?_, ?_⟩ <;>
    simp [viewWithLLM, extractExplanation, hk]

/-- Witness for C3 (amended), at a concrete credential and completion: the
padded completion `" All good. "` is displayed as `"All good."`, and a
transport failure leaves the explanation empty with the failure toast
raised. -/
theorem explain_nonempty_key_spec_witness :
    ("sk-test" ≠ "") ∧
    (viewWithLLM initialViewerState
        (mockLogs "2024-01-15T05:30:00.000Z" "API Server").headI "sk-test"
        (.response (some " All good. "))).llmExplanation = "All good." ∧
    (viewWithLLM initialViewerState
        (mockLogs "2024-01-15T05:30:00.000Z" "API Server").headI "sk-test"
        .fetchError).llmExplanation = "" := by
  have hk : ("sk-test" : String) ≠ "" := by decide
  have h := explain_nonempty_key_spec initialViewerState
    (mockLogs "2024-01-15T05:30:00.000Z" "API Server").headI "sk-test" hk
  refine ⟨hk, ?_, h.2.2.1⟩
  rw [(h.1 " All good. ").1]
  decide

/-! ## Table filters (`components/log-table.tsx`)

The filtering row model itself lives in `@tanstack/react-table`, which is not
part of the repository; the predicates below are modelled from the
specification's description of its semantics. -/

/-- `hay` starts with `needle` (character-list version of a string prefix
test). -/
def startsWithChars : List Char → List Char → Bool
  | _, [] => true
  | [], _ :: _ => false
  | h :: t, nh :: nt => h == nh && startsWithChars t nt

/-- JavaScript's `hay.includes(needle)` on character lists: some suffix of
`hay` starts with `needle`. -/
def containsChars : List Char → List Char → Bool
  | [], needle => startsWithChars [] needle
  | h :: t, needle => startsWithChars (h :: t) needle || containsChars t needle

/-- Lower-cased characters of a string (for case-insensitive matching). -/
def lowerChars (s : String) : List Char :=
  s.data.map Char.toLower

/-- Case-insensitive substring test: `hay` contains `needle` after
lower-casing both. -/
def containsCI (hay needle : String) : Bool :=
  containsChars (lowerChars hay) (lowerChars needle)

/-- Modelled from the spec: the "serialized form" of a row that the global
filter matches against — the row's field values joined together. -/
def rowText (e : LogEntry) : String :=
  e.id ++ " " ++ e.timestamp ++ " " ++ e.level ++ " " ++ e.message ++ " " ++
  e.service ++ " " ++ e.user ++ " " ++ e.component ++ " " ++ e.action ++ " " ++
  e.statusCode ++ " " ++ e.requestId

/-- Modelled from the spec: `setGlobalFilter(text)` excludes every row whose
serialized form does not contain `text` as a case-insensitive substring. -/
def globalPred (text : String) (e : LogEntry) : Bool :=
  containsCI (rowText e) text

/-- Modelled from the spec: `setColumnFilter(columnId, text)` has the same
substring semantics scoped to one field; `key` is the column's accessor. -/
def columnPred (key : LogEntry → String) (text : String) (e : LogEntry) : Bool :=
  containsCI (key e) text

/-- The rows passing the global filter alone. -/
def applyGlobalFilter (text : String) (rows : List LogEntry) : List LogEntry :=
  rows.filter (globalPred text)

/-- The rows passing one column filter alone. -/
def applyColumnFilter (key : LogEntry → String) (text : String)
    (rows : List LogEntry) : List LogEntry :=
  rows.filter (columnPred key text)

/-- The table's filtered row model with both a column filter and the global
filter active: a row must pass both (AND semantics). -/
def applyBothFilters (key : LogEntry → String) (colText globText : String)
    (rows : List LogEntry) : List LogEntry :=
  rows.filter (fun e => columnPred key colText e && globalPred globText e)

/-! ## Claim C6: filter composition is order-independent intersection -/

/-- Claim C6: for every log list, column-filter text and global-filter text,
a row passes the combined filter exactly when it passes the column filter
alone and the global filter alone (intersection / AND semantics), and
applying the two filters one after the other gives the same rows in either
order — indeed exactly the combined filter's rows. -/
theorem filters_intersection (key : LogEntry → String) (colText globText : String)
    (rows : List LogEntry) :
    (∀ e : LogEntry,
      e ∈ applyBothFilters key colText globText rows ↔
        (e ∈ applyColumnFilter key colText rows ∧
         e ∈ applyGlobalFilter globText rows)) ∧
    applyColumnFilter key colText (applyGlobalFilter globText rows) =
      applyGlobalFilter globText (applyColumnFilter key colText rows) ∧
    applyBothFilters key colText globText rows =
      applyColumnFilter key colText (applyGlobalFilter globText rows) := by
  refine ⟨?_, ?_, ?_⟩
  · intro e
    unfold applyBothFilters applyColumnFilter applyGlobalFilter
    rw [List.mem_filter, List.mem_filter, List.mem_filter, Bool.and_eq_true]
    exact ⟨fun ⟨h1, h2, h3⟩ => ⟨⟨h1, h2⟩, h1, h3⟩, fun ⟨⟨h1, h2⟩, ⟨h4, h3⟩⟩ => ⟨h1, h2, h3⟩⟩
  · unfold applyColumnFilter applyGlobalFilter
    rw [List.filter_filter, List.filter_filter]
    exact List.filter_congr fun e _ => Bool.and_comm _ _
  · unfold applyBothFilters applyColumnFilter applyGlobalFilter
    rw [List.filter_filter]

/-! ## Table sorting (`components/log-table.tsx`)

The sorted row model lives in `@tanstack/react-table`, not in the
repository; it is modelled from the spec: "stable sort by the column's raw
value", with one active sort key whose direction toggles between ascending
and descending.  Insertion sort is the stable sort; the raw values are the
string fields of a row, compared lexicographically by character code. -/

/-- Lexicographic less-or-equal on character lists: the comparison applied to
a column's raw (string) value. -/
def lexLeChars : List Char → List Char → Bool
  | [], _ => true
  | _ :: _, [] => false
  | a :: as, b :: bs => if a < b then true else if b < a then false else lexLeChars as bs

theorem lexLeChars_total : ∀ (x y : List Char),
    lexLeChars x y = true ∨ lexLeChars y x = true := by
  intro x
  induction x with
  | nil => intro y; left; rfl
  | cons a as ih =>
    intro y
    cases y with
    | nil => right; rfl
    | cons b bs =>
      by_cases hab : a < b
      · left; simp [lexLeChars, hab]
      · by_cases hba : b < a
        · right; simp [lexLeChars, hba]
        · rcases ih bs with h | h
          · left; simp [lexLeChars, hab, hba, h]
          · right; simp [lexLeChars, hab, hba, h]

theorem lexLeChars_trans : ∀ (x y z : List Char),
    lexLeChars x y = true → lexLeChars y z = true → lexLeChars x z = true := by
  intro x
  induction x with
  | nil => intro y z _ _; rfl
  | cons a as ih =>
    intro y z hxy hyz
    cases y with
    | nil => simp [lexLeChars] at hxy
    | cons b bs =>
      cases z with
      | nil => simp [lexLeChars] at hyz
      | cons c cs =>
        by_cases hab : a < b
        · by_cases hbc : b < c
          · simp [lexLeChars, lt_trans hab hbc]
          · by_cases hcb : c < b
            · simp [lexLeChars, hbc, hcb] at hyz
            · have hbceq : b = c := le_antisymm (le_of_not_lt hcb) (le_of_not_lt hbc)
              subst hbceq
              simp [lexLeChars, hab]
        · by_cases hba : b < a
          · simp [lexLeChars, hab, hba] at hxy
          · have habeq : a = b := le_antisymm (le_of_not_lt hba) (le_of_not_lt hab)
            subst habeq
            by_cases hac : a < c
            · simp [lexLeChars, hac]
            · by_cases hca : c < a
              · simp [lexLeChars, hac, hca] at hyz
              · simp only [lexLeChars, if_neg hab, if_neg hba] at hxy
                simp only [lexLeChars, if_neg hac, if_neg hca] at hyz ⊢
                exact ih bs cs hxy hyz

theorem lexLeChars_antisymm : ∀ (x y : List Char),
    lexLeChars x y = true → lexLeChars y x = true → x = y := by
  intro x
  induction x with
  | nil =>
    intro y _ hyx
    cases y with
    | nil => rfl
    | cons b bs => simp [lexLeChars] at hyx
  | cons a as ih =>
    intro y hxy hyx
    cases y with
    | nil => simp [lexLeChars] at hxy
    | cons b bs =>
      by_cases hab : a < b
      · have hba : ¬ b < a := lt_asymm hab
        simp [lexLeChars, hba, hab] at hyx
      · by_cases hba : b < a
        · simp [lexLeChars, hab, hba] at hxy
        · have habeq : a = b := le_antisymm (le_of_not_lt hba) (le_of_not_lt hab)
          subst habeq
          simp only [lexLeChars, if_neg hab, if_neg hba] at hxy hyx
          rw [ih bs hxy hyx]

/-- Two strings with the same character data are equal. -/
theorem string_data_eq {s t : String} (h : s.data = t.data) : s = t := by
  cases s
  cases t
  exact congrArg String.mk h

/-- Row order induced by one column: compare the column's raw string values
lexicographically (`key` is the column's accessor). -/
def rowLe (key : LogEntry → String) (a b : LogEntry) : Prop :=
  lexLeChars (key a).data (key b).data = true

instance (key : LogEntry → String) : DecidableRel (rowLe key) :=
  fun a b => inferInstanceAs (Decidable (lexLeChars (key a).data (key b).data = true))

instance (key : LogEntry → String) : DecidableRel (fun a b => rowLe key b a) :=
  fun a b => inferInstanceAs (Decidable (lexLeChars (key b).data (key a).data = true))

/-- The direction the header button toggles between. -/
inductive SortDir where
  | asc
  | desc
deriving Repr, DecidableEq

/-- Modelled from the spec: the sorted row model — a stable sort (insertion
sort) by the column's raw value, with the comparator flipped when the
direction is descending. -/
def sortRows (key : LogEntry → String) : SortDir → List LogEntry → List LogEntry
  | .asc, rows => List.insertionSort (fun a b => rowLe key a b) rows
  | .desc, rows => List.insertionSort (fun a b => rowLe key b a) rows

theorem sortRows_asc_eq (key : LogEntry → String) (rows : List LogEntry) :
    sortRows key .asc rows = List.insertionSort (fun a b => rowLe key a b) rows := rfl

theorem sortRows_desc_eq (key : LogEntry → String) (rows : List LogEntry) :
    sortRows key .desc rows = List.insertionSort (fun a b => rowLe key b a) rows := rfl

/-- A permutation with pairwise-distinct key values is determined by its key
sequence. -/
theorem eq_of_perm_of_map_eq (f : LogEntry → String) :
    ∀ {l1 l2 : List LogEntry}, l1.Perm l2 →
      l1.Pairwise (fun a b => f a ≠ f b) → l1.map f = l2.map f → l1 = l2 := by
  intro l1
  induction l1 with
  | nil =>
    intro l2 hp _ _
    exact hp.nil_eq
  | cons a t1 ih =>
    intro l2 hp hpw hmap
    cases l2 with
    | nil => simp at hmap
    | cons b t2 =>
      simp only [List.map_cons, List.cons.injEq] at hmap
      obtain ⟨hfab, hmaptl⟩ := hmap
      have hb : b ∈ a :: t1 := hp.symm.subset (List.mem_cons_self b t2)
      have hba : b = a := by
        rcases List.mem_cons.mp hb with h | h
        · exact h
        · exact absurd hfab ((List.pairwise_cons.mp hpw).1 b h)
      subst hba
      rw [ih hp.cons_inv (List.pairwise_cons.mp hpw).2 hmaptl]

/-! ## Claim C5: toggling the sort direction reverses the row order -/

/-- Two rows whose `level` sort keys tie (both `"INFO"`) but which are
different records. -/
def tieRowA : LogEntry :=
  ⟨"log-1", "2024-01-15T05:30:00.000Z", "INFO", "first message",
   "API Server", "demo_user", "demo_component", "demo_action", "200", "req-1"⟩

def tieRowB : LogEntry :=
  ⟨"log-2", "2024-01-15T05:31:00.000Z", "INFO", "second message",
   "API Server", "demo_user", "demo_component", "demo_action", "200", "req-2"⟩

/-- Counterexample to C5 as stated: with two rows whose `level` keys tie, the
stable sort keeps them in original order in BOTH directions, so the
descending order is not the reverse of the ascending order. -/
theorem sort_reverse_counterexample :
    (sortRows (fun e => e.level) .desc [tieRowA, tieRowB] ≠
      (sortRows (fun e => e.level) .asc [tieRowA, tieRowB]).reverse) ∧
    sortRows (fun e => e.level) .desc [tieRowA, tieRowB] = [tieRowA, tieRowB] ∧
    (sortRows (fun e => e.level) .asc [tieRowA, tieRowB]).reverse = [tieRowB, tieRowA] := by
  refine ⟨by decide, by decide, by decide⟩

/-- Claim C5 (amended): when the column's sort keys are pairwise distinct in
the list, sorting ascending and then toggling to descending yields exactly
the reverse of the ascending row order.  (With tied keys the stable sort
keeps tied rows in their original relative order in both directions, so the
descending order is then not the exact reverse — see the counterexample.) -/
theorem sort_desc_reverse (key : LogEntry → String) (rows : List LogEntry)
    (hdist : rows.Pairwise (fun a b => key a ≠ key b)) :
    sortRows key .desc rows = (sortRows key .asc rows).reverse := by
  haveI : IsTrans LogEntry (fun a b => rowLe key a b) :=
    ⟨fun _ _ _ h1 h2 => lexLeChars_trans _ _ _ h1 h2⟩
  haveI : IsTotal LogEntry (fun a b => rowLe key a b) :=
    ⟨fun _ _ => lexLeChars_total _ _⟩
  haveI : IsTrans LogEntry (fun a b => rowLe key b a) :=
    ⟨fun _ _ _ h1 h2 => lexLeChars_trans _ _ _ h2 h1⟩
  haveI : IsTotal LogEntry (fun a b => rowLe key b a) :=
    ⟨fun _ _ => (lexLeChars_total _ _).symm⟩
  haveI : IsAntisymm String (fun x y : String => lexLeChars y.data x.data = true) :=
    ⟨fun _ _ h1 h2 => string_data_eq (lexLeChars_antisymm _ _ h2 h1)⟩
  rw [sortRows_asc_eq, sortRows_desc_eq]
  have hd : (List.insertionSort (fun a b => rowLe key b a) rows).Perm rows :=
    List.perm_insertionSort _ rows
  have ha : (List.insertionSort (fun a b => rowLe key a b) rows).Perm rows :=
    List.perm_insertionSort _ rows
  have hperm : (List.insertionSort (fun a b => rowLe key b a) rows).Perm
      (List.insertionSort (fun a b => rowLe key a b) rows).reverse :=
    hd.trans (ha.symm.trans (List.reverse_perm _).symm)
  have hsd : List.Sorted (fun a b => rowLe key b a)
      (List.insertionSort (fun a b => rowLe key b a) rows) :=
    List.sorted_insertionSort _ rows
  have hsa : List.Sorted (fun a b => rowLe key a b)
      (List.insertionSort (fun a b => rowLe key a b) rows) :=
    List.sorted_insertionSort _ rows
  have hsar : List.Sorted (fun a b => rowLe key b a)
      (List.insertionSort (fun a b => rowLe key a b) rows).reverse := by
    rw [List.Sorted, List.pairwise_reverse]
    exact hsa
  have hksd : List.Sorted (fun x y : String => lexLeChars y.data x.data = true)
      ((List.insertionSort (fun a b => rowLe key b a) rows).map key) := by
    rw [List.Sorted, List.pairwise_map]
    exact hsd
  have hksar : List.Sorted (fun x y : String => lexLeChars y.data x.data = true)
      (((List.insertionSort (fun a b => rowLe key a b) rows).reverse).map key) := by
    rw [List.Sorted, List.pairwise_map]
    exact hsar
  have hkeys : (List.insertionSort (fun a b => rowLe key b a) rows).map key =
      (((List.insertionSort (fun a b => rowLe key a b) rows).reverse).map key) :=
    List.eq_of_perm_of_sorted (hperm.map key) hksd hksar
  have hdistD : (List.insertionSort (fun a b => rowLe key b a) rows).Pairwise
      (fun a b => key a ≠ key b) :=
    (List.Perm.pairwise_iff (fun h => Ne.symm h) hd).mpr hdist
  exact eq_of_perm_of_map_eq key hperm hdistD hkeys

/-- Three rows with pairwise-distinct `level` keys. -/
def rowsDistinctSample : List LogEntry :=
  [ ⟨"log-1", "t1", "ERROR", "m1", "API Server", "u", "c", "a", "500", "r1"⟩,
    ⟨"log-2", "t2", "INFO", "m2", "API Server", "u", "c", "a", "200", "r2"⟩,
    ⟨"log-3", "t3", "DEBUG", "m3", "API Server", "u", "c", "a", "200", "r3"⟩ ]

/-- Witness for C5 (amended): on three rows with pairwise-distinct `level`
keys, descending order is exactly the reverse of ascending order. -/
theorem sort_desc_reverse_witness :
    rowsDistinctSample.Pairwise (fun a b => a.level ≠ b.level) ∧
    sortRows (fun e => e.level) .desc rowsDistinctSample =
      (sortRows (fun e => e.level) .asc rowsDistinctSample).reverse :=
  ⟨by decide, sort_desc_reverse (fun e => e.level) rowsDistinctSample (by decide)⟩

/-! ## Pagination (`components/log-table.tsx`)

The pagination row model lives in `@tanstack/react-table`; the state machine
below is modelled from the spec: page count is `ceil(filteredRowCount /
pageSize)` and the page index clamps to `[0, pageCount - 1]` on a page-size
change and under first/previous/next/last navigation. -/

/-- The table's pagination state. -/
structure PageState where
  pageIndex : Nat
  pageSize : Nat
deriving Repr, DecidableEq

/-- Modelled from the spec: `ceil(filteredRowCount / pageSize)` as natural
ceiling division. -/
def pageCount (filteredCount pageSize : Nat) : Nat :=
  (filteredCount + pageSize - 1) / pageSize

/-- Modelled from the spec: clamp an index into `[0, pageCount - 1]`.  In
JavaScript this is `max(0, min(i, pageCount - 1))`; with an empty table
(`pageCount = 0`) that yields `0`, which truncated `Nat` subtraction
reproduces. -/
def clampPageIndex (pc i : Nat) : Nat :=
  min i (pc - 1)

/-- Changing the page size from the selector: the new size is stored and the
index clamps into the recomputed range. -/
def setPageSize (filteredCount : Nat) (s : PageState) (n : Nat) : PageState :=
  ⟨clampPageIndex (pageCount filteredCount n) s.pageIndex, n⟩

/-- `table.setPageIndex(0)` (first-page button). -/
def firstPage (filteredCount : Nat) (s : PageState) : PageState :=
  ⟨clampPageIndex (pageCount filteredCount s.pageSize) 0, s.pageSize⟩

/-- `table.previousPage()`. -/
def previousPage (filteredCount : Nat) (s : PageState) : PageState :=
  ⟨clampPageIndex (pageCount filteredCount s.pageSize) (s.pageIndex - 1), s.pageSize⟩

/-- `table.nextPage()`. -/
def nextPage (filteredCount : Nat) (s : PageState) : PageState :=
  ⟨clampPageIndex (pageCount filteredCount s.pageSize) (s.pageIndex + 1), s.pageSize⟩

/-- `table.setPageIndex(table.getPageCount() - 1)` (last-page button). -/
def lastPage (filteredCount : Nat) (s : PageState) : PageState :=
  ⟨clampPageIndex (pageCount filteredCount s.pageSize) (pageCount filteredCount s.pageSize - 1),
   s.pageSize⟩

/-- The in-range property the claim asserts, stated without truncated
subtraction: with rows present the index is at most `pageCount - 1`, and with
no rows the index is `0`. -/
def pageInvariant (filteredCount : Nat) (s : PageState) : Prop :=
  (0 < filteredCount → s.pageIndex + 1 ≤ pageCount filteredCount s.pageSize) ∧
  (filteredCount = 0 → s.pageIndex = 0)

/-! ## Claim C8: page count and index clamping -/

theorem pageCount_ceil (F n : Nat) (hn : 0 < n) :
    F ≤ pageCount F n * n ∧ pageCount F n * n < F + n := by
  have h1 : n * pageCount F n + (F + n - 1) % n = F + n - 1 := by
    rw [add_comm]
    exact Nat.mod_add_div (F + n - 1) n
  have h2 : (F + n - 1) % n < n := Nat.mod_lt _ hn
  rw [mul_comm]
  generalize n * pageCount F n = q at h1 ⊢
  generalize (F + n - 1) % n = r at h1 h2
  omega

theorem pageCount_pos (F n : Nat) (hn : 0 < n) (hF : 0 < F) :
    1 ≤ pageCount F n := by
  have h := (pageCount_ceil F n hn).1
  by_contra hc
  have : pageCount F n = 0 := by omega
  rw [this] at h
  omega

theorem pageCount_zero (n : Nat) (hn : 0 < n) : pageCount 0 n = 0 := by
  unfold pageCount
  exact Nat.div_eq_of_lt (by omega)

theorem clamp_pageInvariant (F n : Nat) (hn : 0 < n) (x : Nat) :
    pageInvariant F ⟨clampPageIndex (pageCount F n) x, n⟩ := by
  constructor
  · intro hF
    have h1 := pageCount_pos F n hn hF
    have h2 : clampPageIndex (pageCount F n) x ≤ pageCount F n - 1 :=
      Nat.min_le_right _ _
    show clampPageIndex (pageCount F n) x + 1 ≤ pageCount F n
    omega
  · intro hF0
    subst hF0
    show clampPageIndex (pageCount 0 n) x = 0
    rw [clampPageIndex, pageCount_zero n hn]
    simp

/-- Claim C8 (amended): for every filtered row count `F` and positive page
size `n`, the page count is exactly `ceil(F / n)` (characterized by
`F ≤ pageCount * n < F + n`); after a page-size change and after each of the
first/previous/next/last navigation operations the page index clamps into
`[0, pageCount - 1]` whenever `F > 0` — with `F = 0` the page count is `0`
and the index clamps to `0`, which lies outside the then-empty range. -/
theorem pagination_spec (F n : Nat) (s : PageState) (hn : 0 < n)
    (hs : 0 < s.pageSize) :
    (F ≤ pageCount F n * n ∧ pageCount F n * n < F + n) ∧
    pageInvariant F (setPageSize F s n) ∧
    pageInvariant F (firstPage F s) ∧
    pageInvariant F (previousPage F s) ∧
    pageInvariant F (nextPage F s) ∧
    pageInvariant F (lastPage F s) :=
  ⟨pageCount_ceil F n hn,
   clamp_pageInvariant F n hn s.pageIndex,
   clamp_pageInvariant F s.pageSize hs 0,
   clamp_pageInvariant F s.pageSize hs (s.pageIndex - 1),
   clamp_pageInvariant F s.pageSize hs (s.pageIndex + 1),
   clamp_pageInvariant F s.pageSize hs (pageCount F s.pageSize - 1)⟩

/-- Counterexample to C8 as stated: with `F = 0` filtered rows and page size
`10` the page count is `0`, so the claimed range `[0, ceil(F/N) - 1]` is
empty, yet the index after a navigation operation is `0` — outside that
range. -/
theorem pagination_counterexample :
    pageCount 0 10 = 0 ∧
    (nextPage 0 ⟨0, 10⟩).pageIndex = 0 ∧
    ¬ ((nextPage 0 ⟨0, 10⟩).pageIndex + 1 ≤ pageCount 0 10) := by
  refine ⟨rfl, rfl, ?_⟩
  decide

/-- Witness for C8 (amended) at `F = 25` rows: changing the page size to `20`
and pressing next both land the index in range, and the page count is the
ceiling of `25 / 20`. -/
theorem pagination_spec_witness :
    (25 ≤ pageCount 25 20 * 20 ∧ pageCount 25 20 * 20 < 25 + 20) ∧
    pageInvariant 25 (setPageSize 25 ⟨2, 10⟩ 20) ∧
    pageInvariant 25 (nextPage 25 ⟨2, 10⟩) := by
  have h := pagination_spec 25 20 ⟨2, 10⟩ (by decide) (by decide)
  exact ⟨h.1, h.2.1, h.2.2.2.2.1⟩

end LogViewer
